import Mathlib

/-!
Shallow embedding of the per-entity timeline reconstruction and interpolation
engine of `src/scripts/atlas.py` (`download_e_processar`, lines 59–103).

Modelling conventions:
* a dataframe row is a `Row`: the join key `ano` (year, `ℤ`), the three
  identity columns `codmun`, `nome_municipio`, `uf` (`Option String`, `none`
  being pandas `NaN`), and the seven numeric indicator columns
  (`idhm, idhm_renda, idhm_educ, idhm_longevidade, renda_pc, esp_vida,
  tx_analfabetismo`) modelled uniformly as `nums : Fin 7 → Option ℚ`;
* missing values are `none`; numeric values are exact rationals;
* `df['codmun'].astype(str)` renders a missing key as the string `"nan"`,
  as pandas does, and `str.zfill(7)` left-pads with `'0'`;
* `groupby('codmun')` iterates the distinct keys in ascending lexicographic
  order (pandas `sort=True` default), each group keeping input row order;
* `pd.merge(df_timeline, dados_mun, on='ano', how='left')` produces, for each
  target year, the matching group rows (all of them), or one all-`NaN` row;
* `ffill`/`bfill` are forward/backward fill per column;
* `interpolate(method='linear')` is positional linear interpolation per
  column: values are treated as equally spaced, interior `NaN`s are filled
  from the nearest valid neighbours, `NaN`s after the last valid value are
  filled with that value, leading `NaN`s stay missing.
-/

structure Row where
  ano : ℤ
  codmun : Option String
  nome_municipio : Option String
  uf : Option String
  nums : Fin 7 → Option ℚ

def dRow : Row :=
  { ano := 0, codmun := none, nome_municipio := none, uf := none,
    nums := fun _ => none }

def ANOS_CENSITARIOS : List ℤ := [2000, 2010]

def ANOS_ALVO : List ℤ := [2000, 2005, 2010, 2015]

/-- `str.zfill n`: left-pad with `'0'` to length `n` (never truncates). -/
def zfill (n : ℕ) (s : String) : String :=
  String.mk (List.replicate (n - s.length) '0') ++ s

/-- `astype(str)` on one cell of the `codmun` column: pandas renders a
missing value (`NaN`) as the string `"nan"`. -/
def astype_str (c : Option String) : String :=
  match c with
  | none => "nan"
  | some s => s

/-- Line 70: `df['codmun'] = df['codmun'].astype(str).str.zfill(7)`. -/
def normalizeCod (o : Row) : Row :=
  { o with codmun := some (zfill 7 (astype_str o.codmun)) }

/-- The dataframe reaching the `groupby` at line 82: the year filter of
line 62 (`df[df['ANO'].isin(ANOS_CENSITARIOS)]`) followed by the key
normalization of line 70. Column selection/renaming (lines 65–66) is the
identity in this model: `Row` already carries the renamed columns. -/
def coreInput (input : List Row) : List Row :=
  (input.filter (fun o => decide (o.ano ∈ ANOS_CENSITARIOS))).map normalizeCod

/-- Ascending lexicographic order on strings, as pandas sorts group keys. -/
def strLe (a b : String) : Prop := a.data ≤ b.data

instance : DecidableRel strLe := fun a b => inferInstanceAs (Decidable (a.data ≤ b.data))

instance : IsTrans String strLe := ⟨fun _ _ _ h h' => le_trans h h'⟩

instance : IsTotal String strLe := ⟨fun a b => le_total a.data b.data⟩

/-- The distinct group keys of `df.groupby('codmun')`, in the sorted order
in which the loop at line 82 visits them. -/
def entityKeys (input : List Row) : List String :=
  List.insertionSort strLe ((coreInput input).filterMap (fun o => o.codmun)).dedup

/-- The group `dados_mun` for key `e`: the rows of the dataframe whose
(normalized) `codmun` equals `e`, in input order. -/
def groupOf (input : List Row) (e : String) : List Row :=
  (coreInput input).filter (fun o => decide (o.codmun = some e))

/-- A scaffold row of `df_timeline` after a `how='left'` merge found no
match for year `y`: every non-key column is `NaN`. -/
def emptyRow (y : ℤ) : Row :=
  { ano := y, codmun := none, nome_municipio := none, uf := none,
    nums := fun _ => none }

/-- The merged rows for one target year `y`: all group rows observed at `y`
(in group order), or a single all-`NaN` row when there is none. -/
def mergeRows (grp : List Row) (y : ℤ) : List Row :=
  let ms := grp.filter (fun o => decide (o.ano = y))
  if ms.isEmpty then [emptyRow y] else ms.map (fun o => { o with ano := y })

/-- Lines 84–87: `df_merged = pd.merge(df_timeline, dados_mun, on='ano',
how='left')` with `df_timeline = pd.DataFrame({'ano': ANOS_ALVO})`. -/
def mergeTimeline (grp : List Row) : List Row :=
  ANOS_ALVO.flatMap (mergeRows grp)

/-- Forward fill with an explicit carried value. -/
def ffillAux {α : Type} : Option α → List (Option α) → List (Option α)
  | _, [] => []
  | c, none :: xs => c :: ffillAux c xs
  | _, some a :: xs => some a :: ffillAux (some a) xs

/-- Column-wise `Series.ffill()`. -/
def ffill {α : Type} (l : List (Option α)) : List (Option α) :=
  ffillAux none l

/-- Column-wise `Series.bfill()`: a forward fill run backwards. -/
def bfill {α : Type} (l : List (Option α)) : List (Option α) :=
  (ffill l.reverse).reverse

/-- The valid (non-`NaN`) entries of a column, with their positions. -/
def knownIdx (l : List (Option ℚ)) : List (ℕ × ℚ) :=
  l.enum.filterMap (fun p => p.2.map (fun v => (p.1, v)))

/-- The nearest valid entry strictly before position `i`. -/
def lastBefore (ks : List (ℕ × ℚ)) (i : ℕ) : Option (ℕ × ℚ) :=
  (ks.filter (fun p => decide (p.1 < i))).getLast?

/-- The nearest valid entry strictly after position `i`. -/
def firstAfter (ks : List (ℕ × ℚ)) (i : ℕ) : Option (ℕ × ℚ) :=
  (ks.filter (fun p => decide (i < p.1))).head?

/-- `interpolate(method='linear')` at position `i`: valid entries stay;
a gap between two valid entries is filled linearly in position units from
its nearest valid neighbours; a gap after the last valid entry receives
that entry's value; a gap before the first valid entry stays `NaN`
(`limit_direction='forward'`, the default). -/
def interpAt (l : List (Option ℚ)) (i : ℕ) : Option ℚ :=
  match l.getD i none with
  | some v => some v
  | none =>
    match lastBefore (knownIdx l) i, firstAfter (knownIdx l) i with
    | some jv, some kv =>
        some (jv.2 + (kv.2 - jv.2) * (((i : ℚ) - (jv.1 : ℚ)) / ((kv.1 : ℚ) - (jv.1 : ℚ))))
    | some jv, none => some jv.2
    | none, _ => none

/-- Line 95: `df_merged[cols_numericas].interpolate(method='linear')`,
one column. -/
def interpolate (l : List (Option ℚ)) : List (Option ℚ) :=
  (List.range l.length).map (interpAt l)

/-- Line 91: `df_merged[cols_fixas] = df_merged[cols_fixas].ffill().bfill()`
over the three identity columns. -/
def fillFixas (rows : List Row) : List Row :=
  (List.range rows.length).map (fun t =>
    { (rows.getD t dRow) with
      codmun := (bfill (ffill (rows.map (fun r => r.codmun)))).getD t none,
      nome_municipio :=
        (bfill (ffill (rows.map (fun r => r.nome_municipio)))).getD t none,
      uf := (bfill (ffill (rows.map (fun r => r.uf)))).getD t none })

/-- Apply a column transform `f` to all seven numeric columns at once
(lines 95 and 97 each have this shape). -/
def applyNums (f : List (Option ℚ) → List (Option ℚ)) (rows : List Row) : List Row :=
  (List.range rows.length).map (fun t =>
    { (rows.getD t dRow) with
      nums := fun i => (f (rows.map (fun r => r.nums i))).getD t none })

/-- Lines 84–97: the whole per-group body of the loop at line 82. -/
def processGroup (grp : List Row) : List Row :=
  applyNums ffill (applyNums interpolate (fillFixas (mergeTimeline grp)))

/-- Lines 59–103 of `atlas.py`, from the loaded dataframe to `df_final`:
filter to censitary years, normalize the key, loop over the sorted groups
running the per-group reconstruction, concatenate, and keep only rows whose
year is in the target grid. -/
def download_e_processar (input : List Row) : List Row :=
  ((entityKeys input).flatMap (fun e => processGroup (groupOf input e))).filter
    (fun r => decide (r.ano ∈ ANOS_ALVO))

/-- The seeded value of numeric column `i` for entity `e` at year `y`:
the value carried by the (first) observation of `e` at `y`, if any. -/
def gridVal (input : List Row) (e : String) (y : ℤ) (i : Fin 7) : Option ℚ :=
  (((coreInput input).filter
      (fun o => decide (o.codmun = some e ∧ o.ano = y))).head?).bind
    (fun o => o.nums i)

/-- The numeric column `i` of the output rows keyed `(e, y)` (a one-element
list exactly when the output has exactly one such row). -/
def panelNums (input : List Row) (e : String) (y : ℤ) (i : Fin 7) : List (Option ℚ) :=
  ((download_e_processar input).filter
      (fun r => decide (r.codmun = some e ∧ r.ano = y))).map (fun r => r.nums i)

/-- The block of output rows keyed to entity `e`. -/
def blockOf (input : List Row) (e : String) : List Row :=
  (download_e_processar input).filter (fun r => decide (r.codmun = some e))

/-- The input purged of every observation whose (normalized) key is `e`. -/
def inputWithout (input : List Row) (e : String) : List Row :=
  input.filter (fun o => decide (¬ zfill 7 (astype_str o.codmun) = e))

/-- Well-formed input: at most one observation per `(entity, year)` pair
among the rows reaching the `groupby`. -/
def AtMostOne (input : List Row) : Prop :=
  List.Pairwise (fun o o' => ¬ (o.codmun = o'.codmun ∧ o.ano = o'.ano))
    (coreInput input)

instance (input : List Row) : Decidable (AtMostOne input) :=
  inferInstanceAs (Decidable (List.Pairwise _ _))

/-! ### Basic list lemmas -/

theorem range_map_getD {α β : Type _} (l : List α) (d : α) (f : α → β) :
    (List.range l.length).map (fun t => f (l.getD t d)) = l.map f := by
  induction l with
  | nil => rfl
  | cons a t ih =>
    rw [List.length_cons, List.range_succ_eq_map, List.map_cons, List.map_map,
      List.map_cons]
    refine congrArg₂ _ (by simp) ?_
    simpa [Function.comp_def] using ih

theorem ffillAux_length {α : Type} (c : Option α) (l : List (Option α)) :
    (ffillAux c l).length = l.length := by
  induction l generalizing c with
  | nil => rfl
  | cons x t ih => cases x <;> simp [ffillAux, ih]

theorem ffill_length {α : Type} (l : List (Option α)) :
    (ffill l).length = l.length := ffillAux_length none l

theorem bfill_length {α : Type} (l : List (Option α)) :
    (bfill l).length = l.length := by
  simp [bfill, ffill_length]

theorem interpolate_length (l : List (Option ℚ)) :
    (interpolate l).length = l.length := by
  simp [interpolate]

/-- Forward fill with a valid carried value over a column whose valid
entries all equal `a` yields the constant column `some a`. -/
theorem ffillAux_some_const {α : Type} (a : α) (l : List (Option α))
    (h : ∀ x ∈ l, x = none ∨ x = some a) :
    ffillAux (some a) l = List.replicate l.length (some a) := by
  induction l with
  | nil => rfl
  | cons x t ih =>
    rcases h x (by simp) with hx | hx <;> subst hx <;>
      simp [ffillAux, List.replicate_succ, ih (fun y hy => h y (by simp [hy]))]

/-- Shape of a forward fill over a column whose valid entries all equal
`a`: either the column was entirely missing, or the result is a block of
`none`s followed by a nonempty block of `some a`s. -/
theorem ffill_shape {α : Type} (a : α) (l : List (Option α))
    (h : ∀ x ∈ l, x = none ∨ x = some a) :
    (ffill l = List.replicate l.length none ∧ ∀ x ∈ l, x = none) ∨
      (∃ j, j < l.length ∧
        ffill l = List.replicate j none ++
          List.replicate (l.length - j) (some a)) := by
  induction l with
  | nil => exact Or.inl ⟨rfl, by simp⟩
  | cons x t ih =>
    rcases h x (by simp) with hx | hx
    · subst hx
      rcases ih (fun y hy => h y (by simp [hy])) with ⟨h1, h2⟩ | ⟨j, hj, h1⟩
      · refine Or.inl ⟨?_, by simpa using h2⟩
        show none :: ffillAux none t = _
        rw [show ffillAux none t = ffill t from rfl, h1]
        simp [List.replicate_succ]
      · refine Or.inr ⟨j + 1, by simpa using hj, ?_⟩
        show none :: ffillAux none t = _
        rw [show ffillAux none t = ffill t from rfl, h1]
        have hlen : t.length + 1 - (j + 1) = t.length - j := by omega
        simp [List.replicate_succ, hlen]
    · subst hx
      refine Or.inr ⟨0, by simp, ?_⟩
      show some a :: ffillAux (some a) t = _
      rw [ffillAux_some_const a t (fun y hy => h y (by simp [hy]))]
      simp [List.replicate_succ]

/-- Backward-then-forward filling a column whose valid entries all equal
`a` and which has at least one valid entry yields the constant column. -/
theorem bfill_ffill_const {α : Type} (a : α) (l : List (Option α))
    (h : ∀ x ∈ l, x = none ∨ x = some a) (hm : some a ∈ l) :
    bfill (ffill l) = List.replicate l.length (some a) := by
  rcases ffill_shape a l h with ⟨_, h2⟩ | ⟨j, hj, h1⟩
  · exact absurd (h2 _ hm) (by simp)
  · obtain ⟨m, hmj⟩ : ∃ m, l.length - j = m + 1 := ⟨l.length - j - 1, by omega⟩
    rw [bfill, h1, List.reverse_append, List.reverse_replicate, List.reverse_replicate,
      hmj, List.replicate_succ, List.cons_append]
    rw [show ffill (some a :: (List.replicate m (some a) ++ List.replicate j none)) =
      some a :: ffillAux (some a)
        (List.replicate m (some a) ++ List.replicate j none) from rfl]
    rw [ffillAux_some_const a _ (by
      intro y hy
      rcases List.mem_append.1 hy with hy | hy <;>
        simp [List.eq_of_mem_replicate hy])]
    simp only [List.length_append, List.length_replicate]
    rw [← List.replicate_succ, List.reverse_replicate]
    congr 1
    omega

/-- All-missing columns are fixed points of forward fill. -/
theorem ffill_of_all_none {α : Type} (l : List (Option α))
    (h : ∀ x ∈ l, x = none) : ffill l = l := by
  induction l with
  | nil => rfl
  | cons x t ih =>
    have hx := h x (by simp)
    subst hx
    show none :: ffillAux none t = _
    rw [show ffillAux none t = ffill t from rfl, ih (fun y hy => h y (by simp [hy]))]

/-- All-missing columns are fixed points of backward fill. -/
theorem bfill_of_all_none {α : Type} (l : List (Option α))
    (h : ∀ x ∈ l, x = none) : bfill l = l := by
  rw [bfill, ffill_of_all_none _ (by simpa using h), List.reverse_reverse]

/-- After backward-then-forward filling, a column whose valid entries all
agree carries a single value: any two entries of the result are equal. -/
theorem bfill_ffill_all_eq {α : Type} (l : List (Option α))
    (h : ∀ x ∈ l, ∀ y ∈ l, ∀ a b, x = some a → y = some b → a = b) :
    ∀ u ∈ bfill (ffill l), ∀ v ∈ bfill (ffill l), u = v := by
  by_cases hs : ∃ a, some a ∈ l
  · rcases hs with ⟨a, ha⟩
    have hall : ∀ x ∈ l, x = none ∨ x = some a := by
      intro x hx
      cases x with
      | none => exact Or.inl rfl
      | some b => exact Or.inr (by rw [h _ hx _ ha b a rfl rfl])
    rw [bfill_ffill_const a l hall ha]
    intro u hu v hv
    rw [List.eq_of_mem_replicate hu, List.eq_of_mem_replicate hv]
  · have hall : ∀ x ∈ l, x = none := by
      intro x hx
      cases x with
      | none => rfl
      | some b => exact absurd ⟨b, hx⟩ hs
    rw [ffill_of_all_none l hall, bfill_of_all_none l hall]
    intro u hu v hv
    rw [hall _ hu, hall _ hv]

/-! ### Column views of the pipeline stages -/

theorem applyNums_map_nums (f : List (Option ℚ) → List (Option ℚ))
    (hf : ∀ l, (f l).length = l.length) (rows : List Row) (i : Fin 7) :
    (applyNums f rows).map (fun r => r.nums i) = f (rows.map (fun r => r.nums i)) := by
  unfold applyNums
  rw [List.map_map]
  have hlen : (f (rows.map (fun r => r.nums i))).length = rows.length := by
    rw [hf, List.length_map]
  calc (List.range rows.length).map
        (fun t => (f (rows.map (fun r => r.nums i))).getD t none)
      = (List.range (f (rows.map (fun r => r.nums i))).length).map
          (fun t => (f (rows.map (fun r => r.nums i))).getD t none) := by rw [hlen]
    _ = _ := by
        simpa using range_map_getD (f (rows.map (fun r => r.nums i))) none id

theorem applyNums_map_ano (f : List (Option ℚ) → List (Option ℚ)) (rows : List Row) :
    (applyNums f rows).map (fun r => r.ano) = rows.map (fun r => r.ano) := by
  unfold applyNums
  rw [List.map_map]
  exact range_map_getD rows dRow (fun r => r.ano)

theorem applyNums_map_codmun (f : List (Option ℚ) → List (Option ℚ)) (rows : List Row) :
    (applyNums f rows).map (fun r => r.codmun) = rows.map (fun r => r.codmun) := by
  unfold applyNums
  rw [List.map_map]
  exact range_map_getD rows dRow (fun r => r.codmun)

theorem applyNums_map_nome (f : List (Option ℚ) → List (Option ℚ)) (rows : List Row) :
    (applyNums f rows).map (fun r => r.nome_municipio) =
      rows.map (fun r => r.nome_municipio) := by
  unfold applyNums
  rw [List.map_map]
  exact range_map_getD rows dRow (fun r => r.nome_municipio)

theorem applyNums_map_uf (f : List (Option ℚ) → List (Option ℚ)) (rows : List Row) :
    (applyNums f rows).map (fun r => r.uf) = rows.map (fun r => r.uf) := by
  unfold applyNums
  rw [List.map_map]
  exact range_map_getD rows dRow (fun r => r.uf)

theorem fillFixas_map_ano (rows : List Row) :
    (fillFixas rows).map (fun r => r.ano) = rows.map (fun r => r.ano) := by
  unfold fillFixas
  rw [List.map_map]
  exact range_map_getD rows dRow (fun r => r.ano)

theorem fillFixas_map_nums (rows : List Row) (i : Fin 7) :
    (fillFixas rows).map (fun r => r.nums i) = rows.map (fun r => r.nums i) := by
  unfold fillFixas
  rw [List.map_map]
  exact range_map_getD rows dRow (fun r => r.nums i)

theorem fillFixas_map_col (rows : List Row) (g : Row → Option String)
    (hg : g = (fun r => r.codmun) ∨ g = (fun r => r.nome_municipio) ∨
      g = (fun r => r.uf)) :
    (fillFixas rows).map g = bfill (ffill (rows.map g)) := by
  unfold fillFixas
  rw [List.map_map]
  have hlen : (bfill (ffill (rows.map g))).length = rows.length := by
    rw [bfill_length, ffill_length, List.length_map]
  have key : ∀ (l : List (Option String)), l.length = rows.length →
      (List.range rows.length).map (fun t => l.getD t none) = l := by
    intro l hl
    calc (List.range rows.length).map (fun t => l.getD t none)
        = (List.range l.length).map (fun t => l.getD t none) := by rw [hl]
      _ = l := by simpa using range_map_getD l none id
  rcases hg with hg | hg | hg <;> subst hg <;>
    exact key _ hlen

/-! ### Structure of the merged timeline -/

/-- The value seeded into numeric column `i` at each target year, in grid
order: the value of the first matching group row, when one exists. -/
def seedNum (grp : List Row) (i : Fin 7) : List (Option ℚ) :=
  ANOS_ALVO.map (fun y =>
    ((grp.filter (fun o => decide (o.ano = y))).head?).bind (fun o => o.nums i))

theorem mergeRows_map_ano (grp : List Row) (y : ℤ)
    (h : (grp.filter (fun o => decide (o.ano = y))).length ≤ 1) :
    (mergeRows grp y).map (fun r => r.ano) = [y] := by
  unfold mergeRows
  cases hms : grp.filter (fun o => decide (o.ano = y)) with
  | nil => simp [emptyRow]
  | cons o t =>
    cases t with
    | nil => simp
    | cons o' t' => rw [hms] at h; simp at h

theorem mergeRows_map_nums (grp : List Row) (y : ℤ) (i : Fin 7)
    (h : (grp.filter (fun o => decide (o.ano = y))).length ≤ 1) :
    (mergeRows grp y).map (fun r => r.nums i) =
      [((grp.filter (fun o => decide (o.ano = y))).head?).bind
        (fun o => o.nums i)] := by
  unfold mergeRows
  cases hms : grp.filter (fun o => decide (o.ano = y)) with
  | nil => simp [emptyRow]
  | cons o t =>
    cases t with
    | nil => simp
    | cons o' t' => rw [hms] at h; simp at h

theorem mergeTimeline_map_ano (grp : List Row)
    (h : ∀ y, (grp.filter (fun o => decide (o.ano = y))).length ≤ 1) :
    (mergeTimeline grp).map (fun r => r.ano) = ANOS_ALVO := by
  unfold mergeTimeline
  rw [List.map_flatMap]
  have : ∀ ys : List ℤ, (ys.flatMap fun y => (mergeRows grp y).map fun r => r.ano)
      = ys := by
    intro ys
    induction ys with
    | nil => rfl
    | cons y t ih => rw [List.flatMap_cons, mergeRows_map_ano grp y (h y), ih]; rfl
  exact this ANOS_ALVO

theorem mergeTimeline_map_nums (grp : List Row) (i : Fin 7)
    (h : ∀ y, (grp.filter (fun o => decide (o.ano = y))).length ≤ 1) :
    (mergeTimeline grp).map (fun r => r.nums i) = seedNum grp i := by
  unfold mergeTimeline seedNum
  rw [List.map_flatMap]
  have : ∀ ys : List ℤ,
      (ys.flatMap fun y => (mergeRows grp y).map fun r => r.nums i)
        = ys.map (fun y =>
            ((grp.filter (fun o => decide (o.ano = y))).head?).bind
              (fun o => o.nums i)) := by
    intro ys
    induction ys with
    | nil => rfl
    | cons y t ih =>
      rw [List.flatMap_cons, mergeRows_map_nums grp y i (h y), ih]
      rfl
  exact this ANOS_ALVO

theorem mem_mergeRows_ano (grp : List Row) (y : ℤ) (r : Row)
    (hr : r ∈ mergeRows grp y) : r.ano = y := by
  unfold mergeRows at hr
  by_cases hms : (grp.filter (fun o => decide (o.ano = y))).isEmpty = true
  · rw [if_pos hms] at hr
    simp only [List.mem_singleton] at hr
    subst hr
    rfl
  · rw [if_neg hms] at hr
    rcases List.mem_map.1 hr with ⟨o, _, heq⟩
    rw [← heq]

theorem mem_mergeTimeline_ano (grp : List Row) (r : Row)
    (hr : r ∈ mergeTimeline grp) : r.ano ∈ ANOS_ALVO := by
  unfold mergeTimeline at hr
  rcases List.mem_flatMap.1 hr with ⟨y, hy, hry⟩
  rw [mem_mergeRows_ano grp y r hry]
  exact hy

theorem mem_mergeRows_codmun (grp : List Row) (y : ℤ) (r : Row)
    (hr : r ∈ mergeRows grp y) : r.codmun = none ∨ ∃ o ∈ grp, r.codmun = o.codmun := by
  unfold mergeRows at hr
  by_cases hms : (grp.filter (fun o => decide (o.ano = y))).isEmpty = true
  · rw [if_pos hms] at hr
    simp only [List.mem_singleton] at hr
    subst hr
    exact Or.inl rfl
  · rw [if_neg hms] at hr
    rcases List.mem_map.1 hr with ⟨o, ho, heq⟩
    exact Or.inr ⟨o, List.mem_of_mem_filter ho, by rw [← heq]⟩

/-- An observation of the group whose year is on the grid appears among the
merged rows. -/
theorem self_mem_mergeTimeline (grp : List Row) (o : Row) (ho : o ∈ grp)
    (hy : o.ano ∈ ANOS_ALVO) : o ∈ mergeTimeline grp := by
  unfold mergeTimeline
  refine List.mem_flatMap.2 ⟨o.ano, hy, ?_⟩
  unfold mergeRows
  have hmem : o ∈ grp.filter (fun o2 => decide (o2.ano = o.ano)) :=
    List.mem_filter.2 ⟨ho, by simp⟩
  have hne : ¬ ((grp.filter (fun o2 => decide (o2.ano = o.ano))).isEmpty = true) := by
    simp only [List.isEmpty_iff]
    exact List.ne_nil_of_mem hmem
  rw [if_neg hne]
  exact List.mem_map.2 ⟨o, hmem, rfl⟩

/-! ### Column views of the per-group pipeline -/

theorem processGroup_map_ano (grp : List Row) :
    (processGroup grp).map (fun r => r.ano) =
      (mergeTimeline grp).map (fun r => r.ano) := by
  unfold processGroup
  rw [applyNums_map_ano, applyNums_map_ano, fillFixas_map_ano]

theorem processGroup_map_nums (grp : List Row) (i : Fin 7) :
    (processGroup grp).map (fun r => r.nums i) =
      ffill (interpolate ((mergeTimeline grp).map (fun r => r.nums i))) := by
  unfold processGroup
  rw [applyNums_map_nums ffill ffill_length, applyNums_map_nums interpolate
    interpolate_length, fillFixas_map_nums]

theorem processGroup_map_codmun (grp : List Row) :
    (processGroup grp).map (fun r => r.codmun) =
      bfill (ffill ((mergeTimeline grp).map (fun r => r.codmun))) := by
  unfold processGroup
  rw [applyNums_map_codmun, applyNums_map_codmun,
    fillFixas_map_col _ _ (Or.inl rfl)]

theorem processGroup_map_nome (grp : List Row) :
    (processGroup grp).map (fun r => r.nome_municipio) =
      bfill (ffill ((mergeTimeline grp).map (fun r => r.nome_municipio))) := by
  unfold processGroup
  rw [applyNums_map_nome, applyNums_map_nome,
    fillFixas_map_col _ _ (Or.inr (Or.inl rfl))]

theorem processGroup_map_uf (grp : List Row) :
    (processGroup grp).map (fun r => r.uf) =
      bfill (ffill ((mergeTimeline grp).map (fun r => r.uf))) := by
  unfold processGroup
  rw [applyNums_map_uf, applyNums_map_uf, fillFixas_map_col _ _ (Or.inr (Or.inr rfl))]

theorem mem_processGroup_ano (grp : List Row) (r : Row) (hr : r ∈ processGroup grp) :
    r.ano ∈ ANOS_ALVO := by
  have h1 : r.ano ∈ (processGroup grp).map (fun r => r.ano) :=
    List.mem_map.2 ⟨r, hr, rfl⟩
  rw [processGroup_map_ano] at h1
  rcases List.mem_map.1 h1 with ⟨s, hs, hseq⟩
  rw [← hseq]
  exact mem_mergeTimeline_ano grp s hs

/-! ### Groups and keys -/

theorem mem_coreInput_ano (input : List Row) (o : Row) (ho : o ∈ coreInput input) :
    o.ano ∈ ANOS_CENSITARIOS := by
  unfold coreInput at ho
  rcases List.mem_map.1 ho with ⟨o0, ho0, heq⟩
  have := List.of_mem_filter ho0
  simp only [decide_eq_true_eq] at this
  rw [← heq]
  exact this

theorem censitario_mem_alvo (y : ℤ) (hy : y ∈ ANOS_CENSITARIOS) : y ∈ ANOS_ALVO := by
  fin_cases hy <;> decide

theorem groupOf_codmun (input : List Row) (e : String) (o : Row)
    (ho : o ∈ groupOf input e) : o.codmun = some e := by
  have := List.of_mem_filter ho
  simpa using this

theorem groupOf_sub_coreInput (input : List Row) (e : String) (o : Row)
    (ho : o ∈ groupOf input e) : o ∈ coreInput input :=
  List.mem_of_mem_filter ho

theorem mem_entityKeys_iff (input : List Row) (e : String) :
    e ∈ entityKeys input ↔ ∃ o ∈ coreInput input, o.codmun = some e := by
  unfold entityKeys
  rw [(List.perm_insertionSort strLe _).mem_iff, List.mem_dedup, List.mem_filterMap]

theorem entityKeys_nodup (input : List Row) : (entityKeys input).Nodup :=
  ((List.perm_insertionSort strLe _).nodup_iff).2 (List.nodup_dedup _)

theorem entityKeys_sorted (input : List Row) :
    (entityKeys input).Sorted strLe :=
  List.sorted_insertionSort strLe _

/-- Every row of the reconstructed block of a present entity carries the
group key in the `codmun` column. -/
theorem processGroup_codmun_of_key (input : List Row) (e : String)
    (he : e ∈ entityKeys input) (r : Row)
    (hr : r ∈ processGroup (groupOf input e)) : r.codmun = some e := by
  rcases (mem_entityKeys_iff input e).1 he with ⟨o, hoc, hocod⟩
  have hogrp : o ∈ groupOf input e :=
    List.mem_filter.2 ⟨hoc, by simp [hocod]⟩
  have hoano : o.ano ∈ ANOS_ALVO :=
    censitario_mem_alvo o.ano (mem_coreInput_ano input o hoc)
  have homt : o ∈ mergeTimeline (groupOf input e) :=
    self_mem_mergeTimeline (groupOf input e) o hogrp hoano
  have hall : ∀ x ∈ (mergeTimeline (groupOf input e)).map (fun r => r.codmun),
      x = none ∨ x = some e := by
    intro x hx
    rcases List.mem_map.1 hx with ⟨s, hs, hseq⟩
    rcases List.mem_flatMap.1 hs with ⟨y, _, hsy⟩
    rcases mem_mergeRows_codmun (groupOf input e) y s hsy with hnone | ⟨o2, ho2, heq2⟩
    · rw [← hseq]; exact Or.inl hnone
    · rw [← hseq, heq2, groupOf_codmun input e o2 ho2]
      exact Or.inr rfl
  have hmm : some e ∈ (mergeTimeline (groupOf input e)).map (fun r => r.codmun) := by
    refine List.mem_map.2 ⟨o, homt, ?_⟩
    rw [hocod]
  have hcol : (processGroup (groupOf input e)).map (fun r => r.codmun) =
      List.replicate ((mergeTimeline (groupOf input e)).map
        (fun r => r.codmun)).length (some e) := by
    rw [processGroup_map_codmun]
    exact bfill_ffill_const e _ hall hmm
  have hrc : r.codmun ∈ (processGroup (groupOf input e)).map (fun r => r.codmun) :=
    List.mem_map.2 ⟨r, hr, rfl⟩
  rw [hcol] at hrc
  exact List.eq_of_mem_replicate hrc

/-! ### Block decomposition of the output panel -/

theorem filter_flatMap {α β : Type _} (l : List α) (g : α → List β) (p : β → Bool) :
    (l.flatMap g).filter p = l.flatMap (fun a => (g a).filter p) := by
  induction l with
  | nil => rfl
  | cons a t ih => rw [List.flatMap_cons, List.flatMap_cons, List.filter_append, ih]

theorem flatMap_single {α β : Type _} [DecidableEq α] (e : α) (g : α → List β) :
    ∀ (ks : List α), ks.Nodup → (∀ k ∈ ks, k ≠ e → g k = []) →
      ks.flatMap g = if e ∈ ks then g e else [] := by
  intro ks
  induction ks with
  | nil => intro _ _; rfl
  | cons k t ih =>
    intro hnd h
    rw [List.flatMap_cons]
    rcases List.nodup_cons.1 hnd with ⟨hkt, hndt⟩
    by_cases hke : k = e
    · subst hke
      have ht : t.flatMap g = [] := by
        rw [List.flatMap_eq_nil_iff]
        intro k2 hk2
        exact h k2 (by simp [hk2]) (fun hc => hkt (hc ▸ hk2))
      rw [ht, if_pos (by simp)]
      simp
    · rw [h k (by simp) hke, List.nil_append,
        ih hndt (fun k2 hk2 => h k2 (by simp [hk2]))]
      by_cases het : e ∈ t
      · rw [if_pos het, if_pos (by simp [het])]
      · rw [if_neg het, if_neg (by simp [het]; exact fun hc => hke hc.symm)]

/-- The defensive year filter at line 103 keeps every reconstructed row. -/
theorem download_eq_flatMap (input : List Row) :
    download_e_processar input =
      (entityKeys input).flatMap (fun e => processGroup (groupOf input e)) := by
  unfold download_e_processar
  rw [List.filter_eq_self]
  intro r hr
  rcases List.mem_flatMap.1 hr with ⟨e, _, hre⟩
  simp only [decide_eq_true_eq]
  exact mem_processGroup_ano _ r hre

theorem mem_download_iff (input : List Row) (r : Row) :
    r ∈ download_e_processar input ↔
      ∃ e ∈ entityKeys input, r ∈ processGroup (groupOf input e) := by
  rw [download_eq_flatMap]
  exact List.mem_flatMap

/-- The output rows keyed to entity `e` are exactly the reconstructed
timeline of `e`'s group, and are empty for an absent key. -/
theorem blockOf_eq (input : List Row) (e : String) :
    blockOf input e =
      if e ∈ entityKeys input then processGroup (groupOf input e) else [] := by
  unfold blockOf
  rw [download_eq_flatMap, filter_flatMap]
  rw [flatMap_single e _ (entityKeys input) (entityKeys_nodup input) ?empty]
  case empty =>
    intro k hk hke
    rw [List.filter_eq_nil_iff]
    intro r hr
    rw [processGroup_codmun_of_key input k hk r hr]
    simp
    exact hke
  by_cases he : e ∈ entityKeys input
  · rw [if_pos he, if_pos he, List.filter_eq_self]
    intro r hr
    rw [processGroup_codmun_of_key input e he r hr]
    simp
  · rw [if_neg he, if_neg he]

/-! ### Consequences of the at-most-one-observation invariant -/

theorem atMostOne_pair_filter (input : List Row) (ham : AtMostOne input)
    (e : String) (y : ℤ) :
    ((coreInput input).filter
      (fun o => decide (o.codmun = some e ∧ o.ano = y))).length ≤ 1 := by
  by_contra hlen
  push_neg at hlen
  have hpw : List.Pairwise (fun o o2 => ¬ (o.codmun = o2.codmun ∧ o.ano = o2.ano))
      ((coreInput input).filter
        (fun o => decide (o.codmun = some e ∧ o.ano = y))) :=
    ham.sublist (List.filter_sublist _)
  rcases hms : (coreInput input).filter
      (fun o => decide (o.codmun = some e ∧ o.ano = y)) with _ | ⟨a, t⟩
  · rw [hms] at hlen; simp at hlen
  · rcases ht : t with _ | ⟨b, t2⟩
    · rw [hms, ht] at hlen; simp at hlen
    · rw [hms, ht] at hpw
      have hab := (List.pairwise_cons.1 hpw).1 b (by simp)
      have ha : a.codmun = some e ∧ a.ano = y := by
        have := List.of_mem_filter (l := coreInput input) (hms ▸ List.mem_cons_self a t)
        simpa using this
      have hb : b.codmun = some e ∧ b.ano = y := by
        have hbmem : b ∈ (coreInput input).filter
            (fun o => decide (o.codmun = some e ∧ o.ano = y)) := by
          rw [hms, ht]; simp
        have := List.of_mem_filter hbmem
        simpa using this
      exact hab ⟨ha.1.trans hb.1.symm, ha.2.trans hb.2.symm⟩

theorem groupOf_filter_year (input : List Row) (e : String) (y : ℤ) :
    (groupOf input e).filter (fun o => decide (o.ano = y)) =
      (coreInput input).filter (fun o => decide (o.codmun = some e ∧ o.ano = y)) := by
  unfold groupOf
  rw [List.filter_filter]
  apply List.filter_congr
  intro o _
  by_cases h1 : o.ano = y <;> by_cases h2 : o.codmun = some e <;> simp [h1, h2]

theorem groupOf_per_year (input : List Row) (ham : AtMostOne input)
    (e : String) (y : ℤ) :
    ((groupOf input e).filter (fun o => decide (o.ano = y))).length ≤ 1 := by
  rw [groupOf_filter_year]
  exact atMostOne_pair_filter input ham e y

theorem seedNum_eq_gridVal (input : List Row) (e : String) (i : Fin 7) :
    seedNum (groupOf input e) i =
      [gridVal input e 2000 i, gridVal input e 2005 i,
        gridVal input e 2010 i, gridVal input e 2015 i] := by
  unfold seedNum gridVal
  show List.map _ ANOS_ALVO = _
  rw [show ANOS_ALVO = [2000, 2005, 2010, 2015] from rfl]
  simp only [List.map_cons, List.map_nil, groupOf_filter_year]

theorem map_eq_four {α β : Type _} {f : α → β} {l : List α} {b0 b1 b2 b3 : β}
    (h : l.map f = [b0, b1, b2, b3]) :
    ∃ a0 a1 a2 a3, l = [a0, a1, a2, a3] ∧ f a0 = b0 ∧ f a1 = b1 ∧
      f a2 = b2 ∧ f a3 = b3 := by
  cases l with
  | nil => simp at h
  | cons a0 t0 =>
    cases t0 with
    | nil => simp at h
    | cons a1 t1 =>
      cases t1 with
      | nil => simp at h
      | cons a2 t2 =>
        cases t2 with
        | nil => simp at h
        | cons a3 t3 =>
          cases t3 with
          | nil =>
            simp only [List.map_cons, List.map_nil, List.cons.injEq, and_true] at h
            exact ⟨a0, a1, a2, a3, rfl, h.1, h.2.1, h.2.2.1, h.2.2.2⟩
          | cons a4 t4 => simp at h

/-- Under the at-most-one invariant, the output block of a present entity
is exactly four rows, one per target year in grid order, all keyed `e`,
whose numeric columns are the forward-filled positional interpolation of
the seeded grid values. -/
theorem blockOf_four (input : List Row) (e : String) (ham : AtMostOne input)
    (he : e ∈ entityKeys input) :
    ∃ r0 r1 r2 r3, blockOf input e = [r0, r1, r2, r3] ∧
      r0.ano = 2000 ∧ r1.ano = 2005 ∧ r2.ano = 2010 ∧ r3.ano = 2015 ∧
      r0.codmun = some e ∧ r1.codmun = some e ∧ r2.codmun = some e ∧
        r3.codmun = some e ∧
      ∀ i, [r0.nums i, r1.nums i, r2.nums i, r3.nums i] =
        ffill (interpolate [gridVal input e 2000 i, gridVal input e 2005 i,
          gridVal input e 2010 i, gridVal input e 2015 i]) := by
  have hblock : blockOf input e = processGroup (groupOf input e) := by
    rw [blockOf_eq, if_pos he]
  have hano : (processGroup (groupOf input e)).map (fun r => r.ano) =
      [2000, 2005, 2010, 2015] := by
    rw [processGroup_map_ano,
      mergeTimeline_map_ano _ (groupOf_per_year input ham e)]
    rfl
  rcases map_eq_four hano with ⟨r0, r1, r2, r3, hrows, h0, h1, h2, h3⟩
  refine ⟨r0, r1, r2, r3, by rw [hblock, hrows], h0, h1, h2, h3, ?_, ?_, ?_, ?_, ?_⟩
  · exact processGroup_codmun_of_key input e he r0 (by rw [hrows]; simp)
  · exact processGroup_codmun_of_key input e he r1 (by rw [hrows]; simp)
  · exact processGroup_codmun_of_key input e he r2 (by rw [hrows]; simp)
  · exact processGroup_codmun_of_key input e he r3 (by rw [hrows]; simp)
  · intro i
    have hnums := processGroup_map_nums (groupOf input e) i
    rw [hrows, mergeTimeline_map_nums _ i (groupOf_per_year input ham e),
      seedNum_eq_gridVal] at hnums
    exact hnums

theorem panelNums_eq_block (input : List Row) (e : String) (y : ℤ) (i : Fin 7) :
    panelNums input e y i =
      ((blockOf input e).filter (fun r => decide (r.ano = y))).map
        (fun r => r.nums i) := by
  unfold panelNums blockOf
  rw [List.filter_filter]
  congr 1
  apply List.filter_congr
  intro r _
  by_cases h1 : r.codmun = some e <;> by_cases h2 : r.ano = y <;> simp [h1, h2]

/-! ### Further support lemmas -/

theorem mem_mergeRows_nome (grp : List Row) (y : ℤ) (r : Row)
    (hr : r ∈ mergeRows grp y) :
    r.nome_municipio = none ∨ ∃ o ∈ grp, r.nome_municipio = o.nome_municipio := by
  unfold mergeRows at hr
  by_cases hms : (grp.filter (fun o => decide (o.ano = y))).isEmpty = true
  · rw [if_pos hms] at hr
    simp only [List.mem_singleton] at hr
    subst hr
    exact Or.inl rfl
  · rw [if_neg hms] at hr
    rcases List.mem_map.1 hr with ⟨o, ho, heq⟩
    exact Or.inr ⟨o, List.mem_of_mem_filter ho, by rw [← heq]⟩

theorem mem_mergeRows_uf (grp : List Row) (y : ℤ) (r : Row)
    (hr : r ∈ mergeRows grp y) :
    r.uf = none ∨ ∃ o ∈ grp, r.uf = o.uf := by
  unfold mergeRows at hr
  by_cases hms : (grp.filter (fun o => decide (o.ano = y))).isEmpty = true
  · rw [if_pos hms] at hr
    simp only [List.mem_singleton] at hr
    subst hr
    exact Or.inl rfl
  · rw [if_neg hms] at hr
    rcases List.mem_map.1 hr with ⟨o, ho, heq⟩
    exact Or.inr ⟨o, List.mem_of_mem_filter ho, by rw [← heq]⟩

theorem mem_mergeRows_nums (grp : List Row) (y : ℤ) (i : Fin 7) (r : Row)
    (hr : r ∈ mergeRows grp y) :
    r.nums i = none ∨ ∃ o ∈ grp, r.nums i = o.nums i := by
  unfold mergeRows at hr
  by_cases hms : (grp.filter (fun o => decide (o.ano = y))).isEmpty = true
  · rw [if_pos hms] at hr
    simp only [List.mem_singleton] at hr
    subst hr
    exact Or.inl rfl
  · rw [if_neg hms] at hr
    rcases List.mem_map.1 hr with ⟨o, ho, heq⟩
    exact Or.inr ⟨o, List.mem_of_mem_filter ho, by rw [← heq]⟩

theorem getD_none_of_all_none (l : List (Option ℚ)) (h : ∀ x ∈ l, x = none)
    (t : ℕ) : l.getD t none = none := by
  rw [List.getD_eq_getElem?_getD]
  cases hx : l[t]? with
  | none => rfl
  | some x => simpa using h x (List.getElem?_mem hx)

theorem knownIdx_of_all_none (l : List (Option ℚ)) (h : ∀ x ∈ l, x = none) :
    knownIdx l = [] := by
  unfold knownIdx
  rw [List.filterMap_eq_nil_iff]
  intro p hp
  rw [h p.2 (List.snd_mem_of_mem_enum hp)]
  rfl

theorem interpolate_of_all_none (l : List (Option ℚ)) (h : ∀ x ∈ l, x = none) :
    ∀ x ∈ interpolate l, x = none := by
  intro x hx
  rcases List.mem_map.1 hx with ⟨t, _, heq⟩
  rw [← heq]
  unfold interpAt
  rw [getD_none_of_all_none l h t]
  unfold lastBefore
  rw [knownIdx_of_all_none l h]
  rfl

theorem mergeRows_ne_nil (grp : List Row) (y : ℤ) : mergeRows grp y ≠ [] := by
  unfold mergeRows
  by_cases hms : (grp.filter (fun o => decide (o.ano = y))).isEmpty = true
  · rw [if_pos hms]; simp
  · rw [if_neg hms]
    intro hc
    rcases hx : grp.filter (fun o => decide (o.ano = y)) with _ | ⟨o, t⟩
    · rw [hx] at hms; simp at hms
    · rw [hx] at hc; simp at hc

theorem mergeTimeline_ne_nil (grp : List Row) : mergeTimeline grp ≠ [] := by
  unfold mergeTimeline
  intro hc
  rw [List.flatMap_eq_nil_iff] at hc
  exact mergeRows_ne_nil grp 2000 (hc 2000 (by decide))

theorem applyNums_length (f : List (Option ℚ) → List (Option ℚ)) (rows : List Row) :
    (applyNums f rows).length = rows.length := by
  unfold applyNums
  rw [List.length_map, List.length_range]

theorem fillFixas_length (rows : List Row) :
    (fillFixas rows).length = rows.length := by
  unfold fillFixas
  rw [List.length_map, List.length_range]

theorem processGroup_ne_nil (grp : List Row) : processGroup grp ≠ [] := by
  intro hc
  have hlen : (processGroup grp).length = (mergeTimeline grp).length := by
    unfold processGroup
    rw [applyNums_length, applyNums_length, fillFixas_length]
  rw [hc] at hlen
  exact mergeTimeline_ne_nil grp (List.length_eq_zero.1 hlen.symm)

theorem mem_entityKeys_of_gridVal (input : List Row) (e : String) (y : ℤ)
    (i : Fin 7) (v : ℚ) (h : gridVal input e y i = some v) :
    e ∈ entityKeys input := by
  unfold gridVal at h
  cases hh : ((coreInput input).filter
      (fun o => decide (o.codmun = some e ∧ o.ano = y))).head? with
  | none => rw [hh] at h; simp at h
  | some o =>
    have ho : o ∈ (coreInput input).filter
        (fun o => decide (o.codmun = some e ∧ o.ano = y)) :=
      List.mem_of_mem_head? (by rw [hh]; rfl)
    have hp := List.of_mem_filter ho
    simp only [decide_eq_true_eq] at hp
    exact (mem_entityKeys_iff input e).2 ⟨o, List.mem_of_mem_filter ho, hp.1⟩

theorem filter_pair_eq (input : List Row) (e : String) (y : ℤ) :
    (download_e_processar input).filter
        (fun r => decide (r.codmun = some e ∧ r.ano = y)) =
      (blockOf input e).filter (fun r => decide (r.ano = y)) := by
  unfold blockOf
  rw [List.filter_filter]
  apply List.filter_congr
  intro r _
  by_cases h1 : r.codmun = some e <;> by_cases h2 : r.ano = y <;> simp [h1, h2]

/-! ### Year-based interpolation, as worded by the spec -/

/-- Modelled from the spec: the known `(year, value)` pairs of a column laid
out on a year grid (spec §4.4, step 1). -/
def knownYears (l : List (ℤ × Option ℚ)) : List (ℤ × ℚ) :=
  l.filterMap (fun p => p.2.map (fun v => (p.1, v)))

/-- Modelled from the spec, §4.4 steps 2–4: the value at year `y` whose
current cell is `cur`: a known value stays; an unset year strictly between
two known years gets `v0 + (v1 - v0) * (y - y0) / (y1 - y0)` from the
nearest known years `y0 < y < y1`; an unset year after the last known year
gets the last known value; an unset year before the first known year stays
unset. -/
def yearInterpAt (l : List (ℤ × Option ℚ)) (y : ℤ) (cur : Option ℚ) : Option ℚ :=
  match cur with
  | some v => some v
  | none =>
    match ((knownYears l).filter (fun p => decide (p.1 < y))).getLast?,
        ((knownYears l).filter (fun p => decide (y < p.1))).head? with
    | some jv, some kv =>
        some (jv.2 + (kv.2 - jv.2) * (((y - jv.1 : ℤ) : ℚ) / ((kv.1 - jv.1 : ℤ) : ℚ)))
    | some jv, none => some jv.2
    | none, _ => none

/-- Modelled from the spec: the Numeric Interpolator in year units, applied
to one column laid out on a year grid. -/
def yearInterpolate (l : List (ℤ × Option ℚ)) : List (Option ℚ) :=
  l.map (fun p => yearInterpAt l p.1 p.2)

/-- C9: because the target grid [2000, 2005, 2010, 2015] is uniformly
spaced, the code's position-based linear interpolation (pandas
`interpolate(method='linear')`, which ignores the year column) coincides
with year-unit linear interpolation for every pattern of known and unknown
values on that grid. -/
theorem C9_positional_eq_year_interpolation (a b c d : Option ℚ) :
    interpolate [a, b, c, d] = yearInterpolate (ANOS_ALVO.zip [a, b, c, d]) := by
  rcases a with _ | a <;> rcases b with _ | b <;> rcases c with _ | c <;>
    rcases d with _ | d <;>
    simp [interpolate, interpAt, yearInterpolate, yearInterpAt, knownIdx,
      knownYears, lastBefore, firstAfter, ANOS_ALVO, List.enum, List.enumFrom,
      List.range_succ] <;> norm_num

/-! ### Pointwise evaluations of the interpolation on four-cell columns -/

theorem interp4_mid_01 (v0 v1 : ℚ) (x : Option ℚ) :
    (ffill (interpolate [some v0, none, some v1, x])).getD 1 none =
      some (v0 + (v1 - v0) * (1 / 2)) := by
  rcases x with _ | xv <;>
    simp [interpolate, interpAt, knownIdx, lastBefore, firstAfter, ffill,
      ffillAux, List.enum, List.enumFrom, List.range_succ]

theorem interp4_third_1 (v0 v1 : ℚ) :
    (ffill (interpolate [some v0, none, none, some v1])).getD 1 none =
      some (v0 + (v1 - v0) * (1 / 3)) := by
  simp [interpolate, interpAt, knownIdx, lastBefore, firstAfter, ffill,
    ffillAux, List.enum, List.enumFrom, List.range_succ]

theorem interp4_third_2 (v0 v1 : ℚ) :
    (ffill (interpolate [some v0, none, none, some v1])).getD 2 none =
      some (v0 + (v1 - v0) * (2 / 3)) := by
  simp [interpolate, interpAt, knownIdx, lastBefore, firstAfter, ffill,
    ffillAux, List.enum, List.enumFrom, List.range_succ]

theorem interp4_mid_12 (v0 v1 : ℚ) (x : Option ℚ) :
    (ffill (interpolate [x, some v0, none, some v1])).getD 2 none =
      some (v0 + (v1 - v0) * (1 / 2)) := by
  rcases x with _ | xv <;>
    simp [interpolate, interpAt, knownIdx, lastBefore, firstAfter, ffill,
      ffillAux, List.enum, List.enumFrom, List.range_succ] <;> try norm_num

theorem interp4_carry_from0 (v1 : ℚ) :
    ffill (interpolate [some v1, none, none, none]) =
      [some v1, some v1, some v1, some v1] := by
  simp [interpolate, interpAt, knownIdx, lastBefore, firstAfter, ffill,
    ffillAux, List.enum, List.enumFrom, List.range_succ]

theorem interp4_carry_from1 (v1 : ℚ) (x : Option ℚ) :
    (ffill (interpolate [x, some v1, none, none])).getD 2 none = some v1 ∧
    (ffill (interpolate [x, some v1, none, none])).getD 3 none = some v1 := by
  rcases x with _ | xv <;>
    simp [interpolate, interpAt, knownIdx, lastBefore, firstAfter, ffill,
      ffillAux, List.enum, List.enumFrom, List.range_succ]

theorem interp4_carry_from2 (v1 : ℚ) (x y : Option ℚ) :
    (ffill (interpolate [x, y, some v1, none])).getD 3 none = some v1 := by
  rcases x with _ | xv <;> rcases y with _ | yv <;>
    simp [interpolate, interpAt, knownIdx, lastBefore, firstAfter, ffill,
      ffillAux, List.enum, List.enumFrom, List.range_succ]

theorem interp4_lead_1 (v0 : ℚ) (x y : Option ℚ) :
    (ffill (interpolate [none, some v0, x, y])).getD 0 none = none := by
  rcases x with _ | xv <;> rcases y with _ | yv <;>
    simp [interpolate, interpAt, knownIdx, lastBefore, firstAfter, ffill,
      ffillAux, List.enum, List.enumFrom, List.range_succ]

theorem interp4_lead_2 (v0 : ℚ) (y : Option ℚ) :
    (ffill (interpolate [none, none, some v0, y])).getD 0 none = none ∧
    (ffill (interpolate [none, none, some v0, y])).getD 1 none = none := by
  rcases y with _ | yv <;>
    simp [interpolate, interpAt, knownIdx, lastBefore, firstAfter, ffill,
      ffillAux, List.enum, List.enumFrom, List.range_succ]

theorem interp4_lead_3 (v0 : ℚ) :
    (ffill (interpolate [none, none, none, some v0])).getD 0 none = none ∧
    (ffill (interpolate [none, none, none, some v0])).getD 1 none = none ∧
    (ffill (interpolate [none, none, none, some v0])).getD 2 none = none := by
  simp [interpolate, interpAt, knownIdx, lastBefore, firstAfter, ffill,
    ffillAux, List.enum, List.enumFrom, List.range_succ]

/-- C2: for every entity and numeric indicator, an unset grid year `ym`
strictly between its nearest known grid years `y0 < ym < y1` (values `v0`,
`v1`) receives `v0 + (v1 - v0) * (ym - y0) / (y1 - y0)` in the output; in
particular, a midpoint year receives the arithmetic mean. -/
theorem C2_interior_linear_interpolation (input : List Row) (e : String)
    (i : Fin 7) (y0 ym y1 : ℤ) (v0 v1 : ℚ)
    (ham : AtMostOne input)
    (hy0 : y0 ∈ ANOS_ALVO) (hym : ym ∈ ANOS_ALVO) (hy1 : y1 ∈ ANOS_ALVO)
    (h01 : y0 < ym) (h12 : ym < y1)
    (hv0 : gridVal input e y0 i = some v0)
    (hv1 : gridVal input e y1 i = some v1)
    (hvm : gridVal input e ym i = none)
    (hnear : ∀ y ∈ ANOS_ALVO, y0 < y → y < y1 → y ≠ ym →
      gridVal input e y i = none) :
    panelNums input e ym i =
      [some (v0 + (v1 - v0) * (((ym - y0 : ℤ) : ℚ) / ((y1 - y0 : ℤ) : ℚ)))] ∧
    (ym - y0 = y1 - ym → panelNums input e ym i = [some ((v0 + v1) / 2)]) := by
  have he : e ∈ entityKeys input := mem_entityKeys_of_gridVal input e y0 i v0 hv0
  rcases blockOf_four input e ham he with
    ⟨r0, r1, r2, r3, hb, h0, h1, h2, h3, _, _, _, _, hn⟩
  have hnum := hn i
  simp only [ANOS_ALVO, List.mem_cons, List.not_mem_nil, or_false] at hy0 hym hy1
  rcases hy0 with rfl | rfl | rfl | rfl
  · rcases hym with rfl | rfl | rfl | rfl
    · omega
    · rcases hy1 with rfl | rfl | rfl | rfl
      · omega
      · omega
      · -- (2000, 2005, 2010)
        rw [hv0, hvm, hv1] at hnum
        have hr1 : r1.nums i = some (v0 + (v1 - v0) * (1 / 2)) := by
          have h : ([r0.nums i, r1.nums i, r2.nums i, r3.nums i].getD 1 none) =
              (ffill (interpolate [some v0, none, some v1,
                gridVal input e 2015 i])).getD 1 none := by rw [hnum]
          rw [interp4_mid_01] at h
          exact h
        have hpn : panelNums input e 2005 i = [some (v0 + (v1 - v0) * (1 / 2))] := by
          rw [panelNums_eq_block, hb]
          simp [h0, h1, h2, h3, hr1]
        refine ⟨by rw [hpn]; norm_num, fun _ => by rw [hpn]; congr 2; ring⟩
      · -- (2000, 2005, 2015)
        have h2010 : gridVal input e 2010 i = none := by
          refine hnear 2010 (by decide) (by norm_num) (by norm_num) (by norm_num)
        rw [hv0, hvm, h2010, hv1] at hnum
        have hr1 : r1.nums i = some (v0 + (v1 - v0) * (1 / 3)) := by
          have h : ([r0.nums i, r1.nums i, r2.nums i, r3.nums i].getD 1 none) =
              (ffill (interpolate [some v0, none, none, some v1])).getD 1 none := by
            rw [hnum]
          rw [interp4_third_1] at h
          exact h
        have hpn : panelNums input e 2005 i = [some (v0 + (v1 - v0) * (1 / 3))] := by
          rw [panelNums_eq_block, hb]
          simp [h0, h1, h2, h3, hr1]
        refine ⟨by rw [hpn]; norm_num, fun hmid => by omega⟩
    · rcases hy1 with rfl | rfl | rfl | rfl
      · omega
      · omega
      · omega
      · -- (2000, 2010, 2015)
        have h2005 : gridVal input e 2005 i = none := by
          refine hnear 2005 (by decide) (by norm_num) (by norm_num) (by norm_num)
        rw [hv0, h2005, hvm, hv1] at hnum
        have hr2 : r2.nums i = some (v0 + (v1 - v0) * (2 / 3)) := by
          have h : ([r0.nums i, r1.nums i, r2.nums i, r3.nums i].getD 2 none) =
              (ffill (interpolate [some v0, none, none, some v1])).getD 2 none := by
            rw [hnum]
          rw [interp4_third_2] at h
          exact h
        have hpn : panelNums input e 2010 i = [some (v0 + (v1 - v0) * (2 / 3))] := by
          rw [panelNums_eq_block, hb]
          simp [h0, h1, h2, h3, hr2]
        refine ⟨by rw [hpn]; norm_num, fun hmid => by omega⟩
    · rcases hy1 with rfl | rfl | rfl | rfl <;> omega
  · rcases hym with rfl | rfl | rfl | rfl
    · omega
    · omega
    · rcases hy1 with rfl | rfl | rfl | rfl
      · omega
      · omega
      · omega
      · -- (2005, 2010, 2015)
        rw [hv0, hvm, hv1] at hnum
        have hr2 : r2.nums i = some (v0 + (v1 - v0) * (1 / 2)) := by
          have h : ([r0.nums i, r1.nums i, r2.nums i, r3.nums i].getD 2 none) =
              (ffill (interpolate [gridVal input e 2000 i, some v0, none,
                some v1])).getD 2 none := by rw [hnum]
          rw [interp4_mid_12] at h
          exact h
        have hpn : panelNums input e 2010 i = [some (v0 + (v1 - v0) * (1 / 2))] := by
          rw [panelNums_eq_block, hb]
          simp [h0, h1, h2, h3, hr2]
        refine ⟨by rw [hpn]; norm_num, fun _ => by rw [hpn]; congr 2; ring⟩
    · rcases hy1 with rfl | rfl | rfl | rfl <;> omega
  · rcases hym with rfl | rfl | rfl | rfl
    · omega
    · omega
    · omega
    · rcases hy1 with rfl | rfl | rfl | rfl <;> omega
  · rcases hym with rfl | rfl | rfl | rfl <;> omega

/-- C3: for every entity and numeric indicator, every grid year strictly
after the last known grid year `y1` receives exactly the last known value
`v1` (constant carry-forward, not missing, not interpolated). -/
theorem C3_trailing_carry_forward (input : List Row) (e : String) (i : Fin 7)
    (y1 : ℤ) (v1 : ℚ)
    (ham : AtMostOne input)
    (hy1 : y1 ∈ ANOS_ALVO)
    (hv1 : gridVal input e y1 i = some v1)
    (hlast : ∀ y ∈ ANOS_ALVO, y1 < y → gridVal input e y i = none) :
    ∀ y ∈ ANOS_ALVO, y1 < y → panelNums input e y i = [some v1] := by
  have he : e ∈ entityKeys input := mem_entityKeys_of_gridVal input e y1 i v1 hv1
  rcases blockOf_four input e ham he with
    ⟨r0, r1, r2, r3, hb, h0, h1, h2, h3, _, _, _, _, hn⟩
  have hnum := hn i
  intro y hy hlt
  simp only [ANOS_ALVO, List.mem_cons, List.not_mem_nil, or_false] at hy1 hy
  rcases hy1 with rfl | rfl | rfl | rfl
  · have ha : gridVal input e 2005 i = none := hlast 2005 (by decide) (by norm_num)
    have hb2 : gridVal input e 2010 i = none := hlast 2010 (by decide) (by norm_num)
    have hc : gridVal input e 2015 i = none := hlast 2015 (by decide) (by norm_num)
    rw [hv1, ha, hb2, hc, interp4_carry_from0] at hnum
    simp only [List.cons.injEq, and_true] at hnum
    rcases hy with rfl | rfl | rfl | rfl
    · omega
    · rw [panelNums_eq_block, hb]
      simp [h0, h1, h2, h3, hnum.2.1]
    · rw [panelNums_eq_block, hb]
      simp [h0, h1, h2, h3, hnum.2.2.1]
    · rw [panelNums_eq_block, hb]
      simp [h0, h1, h2, h3, hnum.2.2.2]
  · have ha : gridVal input e 2010 i = none := hlast 2010 (by decide) (by norm_num)
    have hb2 : gridVal input e 2015 i = none := hlast 2015 (by decide) (by norm_num)
    rw [hv1, ha, hb2] at hnum
    have hr2 : r2.nums i = some v1 := by
      have h : ([r0.nums i, r1.nums i, r2.nums i, r3.nums i].getD 2 none) =
          (ffill (interpolate [gridVal input e 2000 i, some v1, none,
            none])).getD 2 none := by rw [hnum]
      rw [(interp4_carry_from1 v1 (gridVal input e 2000 i)).1] at h
      exact h
    have hr3 : r3.nums i = some v1 := by
      have h : ([r0.nums i, r1.nums i, r2.nums i, r3.nums i].getD 3 none) =
          (ffill (interpolate [gridVal input e 2000 i, some v1, none,
            none])).getD 3 none := by rw [hnum]
      rw [(interp4_carry_from1 v1 (gridVal input e 2000 i)).2] at h
      exact h
    rcases hy with rfl | rfl | rfl | rfl
    · omega
    · omega
    · rw [panelNums_eq_block, hb]
      simp [h0, h1, h2, h3, hr2]
    · rw [panelNums_eq_block, hb]
      simp [h0, h1, h2, h3, hr3]
  · have ha : gridVal input e 2015 i = none := hlast 2015 (by decide) (by norm_num)
    rw [hv1, ha] at hnum
    have hr3 : r3.nums i = some v1 := by
      have h : ([r0.nums i, r1.nums i, r2.nums i, r3.nums i].getD 3 none) =
          (ffill (interpolate [gridVal input e 2000 i, gridVal input e 2005 i,
            some v1, none])).getD 3 none := by rw [hnum]
      rw [interp4_carry_from2 v1 (gridVal input e 2000 i)
        (gridVal input e 2005 i)] at h
      exact h
    rcases hy with rfl | rfl | rfl | rfl
    · omega
    · omega
    · omega
    · rw [panelNums_eq_block, hb]
      simp [h0, h1, h2, h3, hr3]
  · rcases hy with rfl | rfl | rfl | rfl <;> omega

/-- C4: for every entity and numeric indicator, every grid year strictly
before the first known grid year stays unset in the output: no backward
interpolation or backward fill is applied to leading gaps. -/
theorem C4_leading_gaps_unset (input : List Row) (e : String) (i : Fin 7)
    (y0 : ℤ) (v0 : ℚ)
    (ham : AtMostOne input)
    (hy0 : y0 ∈ ANOS_ALVO)
    (hv0 : gridVal input e y0 i = some v0)
    (hfirst : ∀ y ∈ ANOS_ALVO, y < y0 → gridVal input e y i = none) :
    ∀ y ∈ ANOS_ALVO, y < y0 → panelNums input e y i = [none] := by
  have he : e ∈ entityKeys input := mem_entityKeys_of_gridVal input e y0 i v0 hv0
  rcases blockOf_four input e ham he with
    ⟨r0, r1, r2, r3, hb, h0, h1, h2, h3, _, _, _, _, hn⟩
  have hnum := hn i
  intro y hy hlt
  simp only [ANOS_ALVO, List.mem_cons, List.not_mem_nil, or_false] at hy0 hy
  rcases hy0 with rfl | rfl | rfl | rfl
  · rcases hy with rfl | rfl | rfl | rfl <;> omega
  · have ha : gridVal input e 2000 i = none := hfirst 2000 (by decide) (by norm_num)
    rw [hv0, ha] at hnum
    have hr0 : r0.nums i = none := by
      have h : ([r0.nums i, r1.nums i, r2.nums i, r3.nums i].getD 0 none) =
          (ffill (interpolate [none, some v0, gridVal input e 2010 i,
            gridVal input e 2015 i])).getD 0 none := by rw [hnum]
      rw [interp4_lead_1 v0 (gridVal input e 2010 i)
        (gridVal input e 2015 i)] at h
      exact h
    rcases hy with rfl | rfl | rfl | rfl
    · rw [panelNums_eq_block, hb]
      simp [h0, h1, h2, h3, hr0]
    · omega
    · omega
    · omega
  · have ha : gridVal input e 2000 i = none := hfirst 2000 (by decide) (by norm_num)
    have hb2 : gridVal input e 2005 i = none := hfirst 2005 (by decide) (by norm_num)
    rw [hv0, ha, hb2] at hnum
    have hr0 : r0.nums i = none := by
      have h : ([r0.nums i, r1.nums i, r2.nums i, r3.nums i].getD 0 none) =
          (ffill (interpolate [none, none, some v0,
            gridVal input e 2015 i])).getD 0 none := by rw [hnum]
      rw [(interp4_lead_2 v0 (gridVal input e 2015 i)).1] at h
      exact h
    have hr1 : r1.nums i = none := by
      have h : ([r0.nums i, r1.nums i, r2.nums i, r3.nums i].getD 1 none) =
          (ffill (interpolate [none, none, some v0,
            gridVal input e 2015 i])).getD 1 none := by rw [hnum]
      rw [(interp4_lead_2 v0 (gridVal input e 2015 i)).2] at h
      exact h
    rcases hy with rfl | rfl | rfl | rfl
    · rw [panelNums_eq_block, hb]
      simp [h0, h1, h2, h3, hr0]
    · rw [panelNums_eq_block, hb]
      simp [h0, h1, h2, h3, hr1]
    · omega
    · omega
  · have ha : gridVal input e 2000 i = none := hfirst 2000 (by decide) (by norm_num)
    have hb2 : gridVal input e 2005 i = none := hfirst 2005 (by decide) (by norm_num)
    have hc : gridVal input e 2010 i = none := hfirst 2010 (by decide) (by norm_num)
    rw [hv0, ha, hb2, hc] at hnum
    have hr0 : r0.nums i = none := by
      have h : ([r0.nums i, r1.nums i, r2.nums i, r3.nums i].getD 0 none) =
          (ffill (interpolate [none, none, none, some v0])).getD 0 none := by
        rw [hnum]
      rw [(interp4_lead_3 v0).1] at h
      exact h
    have hr1 : r1.nums i = none := by
      have h : ([r0.nums i, r1.nums i, r2.nums i, r3.nums i].getD 1 none) =
          (ffill (interpolate [none, none, none, some v0])).getD 1 none := by
        rw [hnum]
      rw [(interp4_lead_3 v0).2.1] at h
      exact h
    have hr2 : r2.nums i = none := by
      have h : ([r0.nums i, r1.nums i, r2.nums i, r3.nums i].getD 2 none) =
          (ffill (interpolate [none, none, none, some v0])).getD 2 none := by
        rw [hnum]
      rw [(interp4_lead_3 v0).2.2] at h
      exact h
    rcases hy with rfl | rfl | rfl | rfl
    · rw [panelNums_eq_block, hb]
      simp [h0, h1, h2, h3, hr0]
    · rw [panelNums_eq_block, hb]
      simp [h0, h1, h2, h3, hr1]
    · rw [panelNums_eq_block, hb]
      simp [h0, h1, h2, h3, hr2]
    · omega

/-- C1: with at most one observation per (entity, year), the output panel
has exactly one row for every (entity in the input) × (grid year) pair, and
nothing else: every output row is keyed by an input entity and a grid
year. -/
theorem C1_exactly_one_row_per_pair (input : List Row)
    (ham : AtMostOne input) :
    (∀ e ∈ entityKeys input, ∀ y ∈ ANOS_ALVO,
      ((download_e_processar input).filter
        (fun r => decide (r.codmun = some e ∧ r.ano = y))).length = 1) ∧
    ∀ r ∈ download_e_processar input,
      (∃ e ∈ entityKeys input, r.codmun = some e) ∧ r.ano ∈ ANOS_ALVO := by
  constructor
  · intro e he y hy
    rw [filter_pair_eq]
    rcases blockOf_four input e ham he with
      ⟨r0, r1, r2, r3, hb, h0, h1, h2, h3, _, _, _, _, _⟩
    rw [hb]
    simp only [ANOS_ALVO, List.mem_cons, List.not_mem_nil, or_false] at hy
    rcases hy with rfl | rfl | rfl | rfl <;> simp [h0, h1, h2, h3]
  · intro r hr
    rcases (mem_download_iff input r).1 hr with ⟨e, he, hre⟩
    exact ⟨⟨e, he, processGroup_codmun_of_key input e he r hre⟩,
      mem_processGroup_ano _ r hre⟩

/-- C10: the output panel is a concatenation of per-entity blocks, one per
distinct zero-padded entity code in ascending lexicographic order, and each
block lists the grid years exactly in the order 2000, 2005, 2010, 2015. -/
theorem C10_output_order (input : List Row) (ham : AtMostOne input) :
    (download_e_processar input).map (fun r => (r.codmun, r.ano)) =
      (entityKeys input).flatMap
        (fun e => ANOS_ALVO.map (fun y => (some e, y))) ∧
    (entityKeys input).Sorted strLe ∧ (entityKeys input).Nodup := by
  refine ⟨?_, entityKeys_sorted input, entityKeys_nodup input⟩
  rw [download_eq_flatMap, List.map_flatMap]
  apply List.flatMap_congr
  intro e he
  rcases blockOf_four input e ham he with
    ⟨r0, r1, r2, r3, hb, h0, h1, h2, h3, hc0, hc1, hc2, hc3, _⟩
  have hpg : processGroup (groupOf input e) = [r0, r1, r2, r3] := by
    rw [← hb, blockOf_eq, if_pos he]
  rw [hpg]
  simp [h0, h1, h2, h3, hc0, hc1, hc2, hc3, ANOS_ALVO]

/-! ### Identity columns -/

theorem mem_mergeRows_col (grp : List Row) (y : ℤ) (r : Row)
    (g : Row → Option String)
    (hg : g = (fun r => r.nome_municipio) ∨ g = (fun r => r.uf))
    (hr : r ∈ mergeRows grp y) : g r = none ∨ ∃ o ∈ grp, g r = g o := by
  rcases hg with hg | hg <;> subst hg
  · exact mem_mergeRows_nome grp y r hr
  · exact mem_mergeRows_uf grp y r hr

/-- After the per-group pipeline, an identity column whose known input
values all agree carries a single value across the whole block. -/
theorem processGroup_col_const (grp : List Row) (g : Row → Option String)
    (hg : g = (fun r => r.nome_municipio) ∨ g = (fun r => r.uf))
    (hagree : ∀ o ∈ grp, ∀ o2 ∈ grp, ∀ a b, g o = some a → g o2 = some b →
      a = b) :
    ∀ r ∈ processGroup grp, ∀ r2 ∈ processGroup grp, g r = g r2 := by
  intro r hr r2 hr2
  have hcol : (processGroup grp).map g =
      bfill (ffill ((mergeTimeline grp).map g)) := by
    rcases hg with hgn | hgn <;> subst hgn
    · exact processGroup_map_nome grp
    · exact processGroup_map_uf grp
  have hagree2 : ∀ x ∈ (mergeTimeline grp).map g, ∀ y ∈ (mergeTimeline grp).map g,
      ∀ a b, x = some a → y = some b → a = b := by
    intro x hx y hy a b hxa hyb
    rcases List.mem_map.1 hx with ⟨s, hs, hseq⟩
    rcases List.mem_map.1 hy with ⟨s2, hs2, hseq2⟩
    rcases List.mem_flatMap.1 hs with ⟨ys, _, hsy⟩
    rcases List.mem_flatMap.1 hs2 with ⟨ys2, _, hsy2⟩
    rcases mem_mergeRows_col grp ys s g hg hsy with hnone | ⟨o, ho, heq⟩
    · rw [← hseq, hnone] at hxa
      exact absurd hxa (by simp)
    rcases mem_mergeRows_col grp ys2 s2 g hg hsy2 with hnone2 | ⟨o2, ho2, heq2⟩
    · rw [← hseq2, hnone2] at hyb
      exact absurd hyb (by simp)
    have hoa : g o = some a := by rw [← heq, hseq, hxa]
    have hob : g o2 = some b := by rw [← heq2, hseq2, hyb]
    exact hagree o ho o2 ho2 a b hoa hob
  have hmr : g r ∈ bfill (ffill ((mergeTimeline grp).map g)) := by
    rw [← hcol]
    exact List.mem_map.2 ⟨r, hr, rfl⟩
  have hmr2 : g r2 ∈ bfill (ffill ((mergeTimeline grp).map g)) := by
    rw [← hcol]
    exact List.mem_map.2 ⟨r2, hr2, rfl⟩
  exact bfill_ffill_all_eq _ hagree2 _ hmr _ hmr2

/-- C5: for an entity with at least one real observation (and identity
attributes that agree across its observations, as the data model
stipulates), all of its output rows carry identical values in each identity
column; and the identity-propagation step applied to an entity with zero
observations leaves every identity column (and indicator) unset. -/
theorem C5_identity_propagation (input : List Row) (e : String)
    (he : e ∈ entityKeys input)
    (hnome : ∀ o ∈ groupOf input e, ∀ o2 ∈ groupOf input e,
      o.nome_municipio ≠ none → o2.nome_municipio ≠ none →
        o.nome_municipio = o2.nome_municipio)
    (huf : ∀ o ∈ groupOf input e, ∀ o2 ∈ groupOf input e,
      o.uf ≠ none → o2.uf ≠ none → o.uf = o2.uf) :
    (∀ r ∈ download_e_processar input, r.codmun = some e →
      ∀ r2 ∈ download_e_processar input, r2.codmun = some e →
        r.codmun = r2.codmun ∧ r.nome_municipio = r2.nome_municipio ∧
          r.uf = r2.uf) ∧
    (∀ r ∈ processGroup [], r.codmun = none ∧ r.nome_municipio = none ∧
      r.uf = none ∧ ∀ i, r.nums i = none) := by
  constructor
  · intro r hr hrc r2 hr2 hrc2
    have hblock : blockOf input e = processGroup (groupOf input e) := by
      rw [blockOf_eq, if_pos he]
    have hrb : r ∈ processGroup (groupOf input e) := by
      rw [← hblock]
      exact List.mem_filter.2 ⟨hr, by simp [hrc]⟩
    have hrb2 : r2 ∈ processGroup (groupOf input e) := by
      rw [← hblock]
      exact List.mem_filter.2 ⟨hr2, by simp [hrc2]⟩
    have hnome2 : ∀ o ∈ groupOf input e, ∀ o2 ∈ groupOf input e, ∀ a b,
        o.nome_municipio = some a → o2.nome_municipio = some b → a = b := by
      intro o ho o2 ho2 a b hxa hyb
      have heq := hnome o ho o2 ho2 (by simp [hxa]) (by simp [hyb])
      rw [hxa, hyb] at heq
      exact Option.some.inj heq
    have huf2 : ∀ o ∈ groupOf input e, ∀ o2 ∈ groupOf input e, ∀ a b,
        o.uf = some a → o2.uf = some b → a = b := by
      intro o ho o2 ho2 a b hxa hyb
      have heq := huf o ho o2 ho2 (by simp [hxa]) (by simp [hyb])
      rw [hxa, hyb] at heq
      exact Option.some.inj heq
    exact ⟨hrc.trans hrc2.symm,
      processGroup_col_const _ _ (Or.inl rfl) hnome2 r hrb r2 hrb2,
      processGroup_col_const _ _ (Or.inr rfl) huf2 r hrb r2 hrb2⟩
  · decide

/-! ### Null entity keys (C6) -/

/-- A single observation whose `entity_id` is missing. -/
def cexC6 : List Row :=
  [{ ano := 2000, codmun := none, nome_municipio := some "SEM CODIGO",
     uf := some "XX", nums := fun _ => some 1 }]

/-- C6 counterexample: an observation with a null `entity_id` is not
rejected; it appears in the output panel grouped under the placeholder key
`"0000nan"` (pandas `astype(str)` renders `NaN` as `"nan"`, which
`zfill(7)` pads to `"0000nan"`). -/
theorem C6_counterexample :
    (download_e_processar cexC6).map (fun r => (r.codmun, r.ano)) =
      [(some "0000nan", 2000), (some "0000nan", 2005),
        (some "0000nan", 2010), (some "0000nan", 2015)] := by
  decide

/-- C6 (amended): an observation with a null `entity_id` at a censitary
year is silently grouped rather than rejected: `"0000nan"` becomes a group
key and the output panel contains rows keyed `some "0000nan"`. -/
theorem C6_amended_null_key_grouped (input : List Row) (o : Row)
    (ho : o ∈ input) (hc : o.codmun = none) (ha : o.ano ∈ ANOS_CENSITARIOS) :
    "0000nan" ∈ entityKeys input ∧
    ∃ r ∈ download_e_processar input, r.codmun = some "0000nan" := by
  have hmemCore : normalizeCod o ∈ coreInput input := by
    unfold coreInput
    exact List.mem_map.2 ⟨o, List.mem_filter.2 ⟨ho, by simp [ha]⟩, rfl⟩
  have hkey : (normalizeCod o).codmun = some "0000nan" := by
    unfold normalizeCod
    rw [hc]
    show some (zfill 7 (astype_str none)) = some "0000nan"
    decide
  have hek : "0000nan" ∈ entityKeys input :=
    (mem_entityKeys_iff input _).2 ⟨normalizeCod o, hmemCore, hkey⟩
  refine ⟨hek, ?_⟩
  rcases List.exists_mem_of_ne_nil _
    (processGroup_ne_nil (groupOf input "0000nan")) with ⟨r, hr⟩
  exact ⟨r, (mem_download_iff input r).2 ⟨_, hek, hr⟩,
    processGroup_codmun_of_key input _ hek r hr⟩

/-- C7: an indicator with zero known values for an entity is not an error:
it stays unset (`none`, never zero) on every output row of that entity, and
removing (or adding) such an entity leaves every other entity's output
block unchanged. -/
theorem C7_unavailable_indicator (input : List Row) (e : String) (i : Fin 7)
    (h : ∀ o ∈ coreInput input, o.codmun = some e → o.nums i = none) :
    (∀ r ∈ download_e_processar input, r.codmun = some e → r.nums i = none) ∧
    (∀ e2, e2 ≠ e → blockOf (inputWithout input e) e2 = blockOf input e2) := by
  constructor
  · intro r hr hrc
    rcases (mem_download_iff input r).1 hr with ⟨k, hk, hrk⟩
    have hkc := processGroup_codmun_of_key input k hk r hrk
    have hke : k = e := by
      rw [hrc] at hkc
      exact (Option.some.inj hkc).symm
    subst hke
    have hcolnone : ∀ x ∈ (mergeTimeline (groupOf input k)).map
        (fun r => r.nums i), x = none := by
      intro x hx
      rcases List.mem_map.1 hx with ⟨s, hs, hseq⟩
      rcases List.mem_flatMap.1 hs with ⟨y, _, hsy⟩
      rcases mem_mergeRows_nums _ _ i _ hsy with hnone | ⟨o, ho, heq⟩
      · rw [← hseq]
        exact hnone
      · rw [← hseq, heq]
        exact h o (groupOf_sub_coreInput input k o ho) (groupOf_codmun input k o ho)
    have hfinal : ∀ x ∈ (processGroup (groupOf input k)).map
        (fun r => r.nums i), x = none := by
      rw [processGroup_map_nums]
      have hi := interpolate_of_all_none _ hcolnone
      rw [ffill_of_all_none _ hi]
      exact hi
    exact hfinal (r.nums i) (List.mem_map.2 ⟨r, hrk, rfl⟩)
  · intro e2 hne
    have hcore : coreInput (inputWithout input e) =
        (coreInput input).filter (fun o => decide (¬ o.codmun = some e)) := by
      unfold coreInput inputWithout
      rw [List.filter_map, List.filter_filter, List.filter_filter]
      congr 1
      apply List.filter_congr
      intro o _
      by_cases h1 : o.ano ∈ ANOS_CENSITARIOS <;>
        by_cases h2 : zfill 7 (astype_str o.codmun) = e <;>
        simp [normalizeCod, h1, h2]
    have hgrp : groupOf (inputWithout input e) e2 = groupOf input e2 := by
      unfold groupOf
      rw [hcore, List.filter_filter]
      apply List.filter_congr
      intro o _
      by_cases h1 : o.codmun = some e2
      · simp [h1, hne]
      · simp [h1]
    have hkeys : e2 ∈ entityKeys (inputWithout input e) ↔
        e2 ∈ entityKeys input := by
      rw [mem_entityKeys_iff, mem_entityKeys_iff]
      constructor
      · rintro ⟨o, ho, hoc⟩
        rw [hcore] at ho
        exact ⟨o, List.mem_of_mem_filter ho, hoc⟩
      · rintro ⟨o, ho, hoc⟩
        refine ⟨o, ?_, hoc⟩
        rw [hcore]
        refine List.mem_filter.2 ⟨ho, ?_⟩
        simp [hoc]
        exact fun hc => hne hc
    rw [blockOf_eq, blockOf_eq, hgrp]
    by_cases hmem : e2 ∈ entityKeys input
    · rw [if_pos (hkeys.2 hmem), if_pos hmem]
    · rw [if_neg (fun hc => hmem (hkeys.1 hc)), if_neg hmem]

/-- C8: the reconstruction is a pure function of its input: two runs on the
same input produce identical output panels — there is no hidden or
time-varying state in the pipeline. -/
theorem C8_deterministic (input input2 : List Row) (h : input = input2) :
    download_e_processar input = download_e_processar input2 := by
  rw [h]

/-! ### Concrete witness input -/

/-- Observation of entity `1000` at 2000: indicator 0 equals 10. -/
def wObs1 : Row :=
  { ano := 2000, codmun := some "1000", nome_municipio := some "NOME A",
    uf := some "SP", nums := fun j => if j = 0 then some 10 else none }

/-- Observation of entity `1000` at 2010: indicator 0 equals 20. -/
def wObs2 : Row :=
  { ano := 2010, codmun := some "1000", nome_municipio := some "NOME A",
    uf := some "SP", nums := fun j => if j = 0 then some 20 else none }

/-- Observation of entity `7` at 2010 only: indicator 0 equals 50. -/
def wObs3 : Row :=
  { ano := 2010, codmun := some "7", nome_municipio := none, uf := none,
    nums := fun j => if j = 0 then some 50 else none }

def wInput : List Row := [wObs1, wObs2, wObs3]

theorem C1_witness :
    AtMostOne wInput ∧
    (∀ e ∈ entityKeys wInput, ∀ y ∈ ANOS_ALVO,
      ((download_e_processar wInput).filter
        (fun r => decide (r.codmun = some e ∧ r.ano = y))).length = 1) :=
  ⟨by decide, (C1_exactly_one_row_per_pair wInput (by decide)).1⟩

theorem C2_witness :
    AtMostOne wInput ∧ gridVal wInput "0001000" 2000 0 = some 10 ∧
    gridVal wInput "0001000" 2010 0 = some 20 ∧
    gridVal wInput "0001000" 2005 0 = none ∧
    panelNums wInput "0001000" 2005 0 =
      [some (10 + (20 - 10) *
        (((2005 - 2000 : ℤ) : ℚ) / ((2010 - 2000 : ℤ) : ℚ)))] ∧
    panelNums wInput "0001000" 2005 0 = [some ((10 + 20) / 2)] := by
  have h := C2_interior_linear_interpolation wInput "0001000" 0 2000 2005 2010
    10 20 (by decide) (by decide) (by decide) (by decide) (by decide)
    (by decide) (by decide) (by decide) (by decide) (by decide)
  exact ⟨by decide, by decide, by decide, by decide, h.1, h.2 (by decide)⟩

theorem C3_witness :
    AtMostOne wInput ∧ gridVal wInput "0001000" 2010 0 = some 20 ∧
    gridVal wInput "0001000" 2015 0 = none ∧
    panelNums wInput "0001000" 2015 0 = [some 20] := by
  have h := C3_trailing_carry_forward wInput "0001000" 0 2010 20 (by decide)
    (by decide) (by decide) (by decide)
  exact ⟨by decide, by decide, by decide, h 2015 (by decide) (by decide)⟩

theorem C4_witness :
    AtMostOne wInput ∧ gridVal wInput "0000007" 2010 0 = some 50 ∧
    gridVal wInput "0000007" 2000 0 = none ∧
    gridVal wInput "0000007" 2005 0 = none ∧
    panelNums wInput "0000007" 2000 0 = [none] ∧
    panelNums wInput "0000007" 2005 0 = [none] := by
  have h := C4_leading_gaps_unset wInput "0000007" 0 2010 50 (by decide)
    (by decide) (by decide) (by decide)
  exact ⟨by decide, by decide, by decide, by decide,
    h 2000 (by decide) (by decide), h 2005 (by decide) (by decide)⟩

theorem C5_witness :
    "0001000" ∈ entityKeys wInput ∧
    ∀ r ∈ download_e_processar wInput, r.codmun = some "0001000" →
      ∀ r2 ∈ download_e_processar wInput, r2.codmun = some "0001000" →
        r.codmun = r2.codmun ∧ r.nome_municipio = r2.nome_municipio ∧
          r.uf = r2.uf :=
  ⟨by decide,
    (C5_identity_propagation wInput "0001000" (by decide) (by decide)
      (by decide)).1⟩

/-- The single observation of `cexC6`, named for reuse. -/
def c6obs : Row :=
  { ano := 2000, codmun := none, nome_municipio := some "SEM CODIGO",
    uf := some "XX", nums := fun _ => some 1 }

theorem C6_witness :
    c6obs ∈ cexC6 ∧ c6obs.codmun = none ∧ c6obs.ano ∈ ANOS_CENSITARIOS ∧
    "0000nan" ∈ entityKeys cexC6 ∧
    ∃ r ∈ download_e_processar cexC6, r.codmun = some "0000nan" := by
  have hmem : c6obs ∈ cexC6 := List.mem_singleton.2 rfl
  have h := C6_amended_null_key_grouped cexC6 c6obs hmem rfl (by decide)
  exact ⟨hmem, rfl, by decide, h.1, h.2⟩

theorem C7_witness :
    (∀ o ∈ coreInput wInput, o.codmun = some "0000007" → o.nums 1 = none) ∧
    (∀ r ∈ download_e_processar wInput, r.codmun = some "0000007" →
      r.nums 1 = none) ∧
    ∀ e2, e2 ≠ "0000007" →
      blockOf (inputWithout wInput "0000007") e2 = blockOf wInput e2 := by
  have h := C7_unavailable_indicator wInput "0000007" 1 (by decide)
  exact ⟨by decide, h.1, h.2⟩

theorem C8_witness :
    download_e_processar wInput = download_e_processar wInput :=
  C8_deterministic wInput wInput rfl

theorem C10_witness :
    AtMostOne wInput ∧
    (download_e_processar wInput).map (fun r => (r.codmun, r.ano)) =
      (entityKeys wInput).flatMap
        (fun e => ANOS_ALVO.map (fun y => (some e, y))) :=
  ⟨by decide, (C10_output_order wInput (by decide)).1⟩
